import Mathlib

/-!
Verification of the IBCM simulator and assembler against its specification.

The definitions below are a shallow embedding of the Rust sources:
`src/instruction.rs` (the instruction codec), `src/simulator.rs` (the
machine simulator and its loaders) and `src/asm.rs` (the two-pass
assembler).  Machine integers (`u16`, `i16`, `u8`) are modelled as `Nat`
bit patterns below `2^16` (resp. `2^8`); the Rust bit operations
`w >> 12`, `(w >> 10) & 0b11`, `w & 0xfff` and `w & 0xf` are rendered as
`w / 4096`, `w / 1024 % 4`, `w % 4096` and `w % 16`, which agree with
them on every natural number.  Streams (`stdin`, `stdout`) are modelled
as explicit lists of lines carried in the simulator state.
-/

namespace Ibcm

/-- The different I/O operations (`IoOp` in `src/instruction.rs`). -/
inductive IoOp
  | readHex
  | readChar
  | writeHex
  | writeChar
deriving DecidableEq

/-- The different shift operations (`ShiftOp` in `src/instruction.rs`). -/
inductive ShiftOp
  | shiftLeft
  | shiftRight
  | rotateLeft
  | rotateRight
deriving DecidableEq

/-- A single IBCM instruction (`Instruction` in `src/instruction.rs`).
Address and shift-amount fields are `u16` values in the source and are
modelled as `Nat`. -/
inductive Instruction
  | halt
  | io (op : IoOp)
  | shift (op : ShiftOp) (amount : Nat)
  | load (addr : Nat)
  | store (addr : Nat)
  | add (addr : Nat)
  | sub (addr : Nat)
  | and (addr : Nat)
  | or (addr : Nat)
  | xor (addr : Nat)
  | not
  | nop
  | jmp (addr : Nat)
  | jmpe (addr : Nat)
  | jmpl (addr : Nat)
  | brl (addr : Nat)
deriving DecidableEq

/-- `Instruction::from_u16`: decode a 16-bit word.  The Rust `match` on
`word >> 12` is rendered as a chain of equality tests on `word / 4096`;
the sub-selector `(word >> 10) & 0b11` is `word / 1024 % 4`, the shift
amount `word & 0xf` is `word % 16` and the address `word & 0xfff` is
`word % 4096`.  The final branch is unreachable for 16-bit words (the
Rust `unreachable!()` arm). -/
def from_u16 (word : Nat) : Instruction :=
  if word / 4096 = 0x0 then .halt
  else if word / 4096 = 0x1 then
    .io (if word / 1024 % 4 = 0 then .readHex
         else if word / 1024 % 4 = 1 then .readChar
         else if word / 1024 % 4 = 2 then .writeHex
         else .writeChar)
  else if word / 4096 = 0x2 then
    .shift (if word / 1024 % 4 = 0 then .shiftLeft
            else if word / 1024 % 4 = 1 then .shiftRight
            else if word / 1024 % 4 = 2 then .rotateLeft
            else .rotateRight)
      (word % 16)
  else if word / 4096 = 0x3 then .load (word % 4096)
  else if word / 4096 = 0x4 then .store (word % 4096)
  else if word / 4096 = 0x5 then .add (word % 4096)
  else if word / 4096 = 0x6 then .sub (word % 4096)
  else if word / 4096 = 0x7 then .and (word % 4096)
  else if word / 4096 = 0x8 then .or (word % 4096)
  else if word / 4096 = 0x9 then .xor (word % 4096)
  else if word / 4096 = 0xA then .not
  else if word / 4096 = 0xB then .nop
  else if word / 4096 = 0xC then .jmp (word % 4096)
  else if word / 4096 = 0xD then .jmpe (word % 4096)
  else if word / 4096 = 0xE then .jmpl (word % 4096)
  else if word / 4096 = 0xF then .brl (word % 4096)
  else .halt

/-- `Instruction::to_u16`: encode an instruction.  The Rust
`base | (n & 0xf)` and `base | (addr & 0xfff)` are rendered as
`base + n % 16` and `base + addr % 4096`; the bit-or equals addition
here because the masked operand occupies only the zero bits of the
base. -/
def to_u16 : Instruction → Nat
  | .halt => 0x0000
  | .io .readHex => 0x1000
  | .io .readChar => 0x1400
  | .io .writeHex => 0x1800
  | .io .writeChar => 0x1c00
  | .shift .shiftLeft n => 0x2000 + n % 16
  | .shift .shiftRight n => 0x2400 + n % 16
  | .shift .rotateLeft n => 0x2800 + n % 16
  | .shift .rotateRight n => 0x2c00 + n % 16
  | .load a => 0x3000 + a % 4096
  | .store a => 0x4000 + a % 4096
  | .add a => 0x5000 + a % 4096
  | .sub a => 0x6000 + a % 4096
  | .and a => 0x7000 + a % 4096
  | .or a => 0x8000 + a % 4096
  | .xor a => 0x9000 + a % 4096
  | .not => 0xa000
  | .nop => 0xb000
  | .jmp a => 0xc000 + a % 4096
  | .jmpe a => 0xd000 + a % 4096
  | .jmpl a => 0xe000 + a % 4096
  | .brl a => 0xf000 + a % 4096

/-- `Instruction::name`: the canonical mnemonic of an instruction. -/
def Instruction.name : Instruction → String
  | .halt => "halt"
  | .io .readHex => "readH"
  | .io .readChar => "readC"
  | .io .writeHex => "printH"
  | .io .writeChar => "printC"
  | .shift .shiftLeft _ => "shiftL"
  | .shift .shiftRight _ => "shiftR"
  | .shift .rotateLeft _ => "rotL"
  | .shift .rotateRight _ => "rotR"
  | .load _ => "load"
  | .store _ => "store"
  | .add _ => "add"
  | .sub _ => "sub"
  | .and _ => "and"
  | .or _ => "or"
  | .xor _ => "xor"
  | .not => "not"
  | .nop => "nop"
  | .jmp _ => "jmp"
  | .jmpe _ => "jmpe"
  | .jmpl _ => "jmpl"
  | .brl _ => "brl"

/-- `Instruction::address`: the address argument, if any. -/
def Instruction.address : Instruction → Option Nat
  | .load n => some n
  | .store n => some n
  | .add n => some n
  | .sub n => some n
  | .and n => some n
  | .or n => some n
  | .xor n => some n
  | .jmp n => some n
  | .jmpe n => some n
  | .jmpl n => some n
  | .brl n => some n
  | _ => none

/-- `Instruction::is_jmp`: whether the instruction is a control-flow
construct. -/
def Instruction.is_jmp : Instruction → Bool
  | .jmp _ => true
  | .jmpe _ => true
  | .jmpl _ => true
  | .brl _ => true
  | _ => false

/-- Encoding is idempotent through a decode: re-encoding the decode of an
encoded instruction gives the same word back.  This is the algebraic core
of the codec round-trip behaviour: `to_u16` masks each field, `from_u16`
recovers exactly the masked fields, and `to_u16` reproduces the word. -/
theorem to_u16_from_u16_to_u16 (i : Instruction) :
    to_u16 (from_u16 (to_u16 i)) = to_u16 i := by
  have addr_case : ∀ (B k : Nat), B = 4096 * k →
      (B + i.address.getD 0 % 4096) / 4096 = k ∧
        (B + i.address.getD 0 % 4096) % 4096 = i.address.getD 0 % 4096 := by
    intro B k hB
    constructor <;> omega
  cases i with
  | halt => rfl
  | io op => cases op <;> rfl
  | shift op n =>
    cases op with
    | shiftLeft =>
      have h1 : (0x2000 + n % 16) / 4096 = 2 := by omega
      have h2 : (0x2000 + n % 16) / 1024 % 4 = 0 := by omega
      have h3 : (0x2000 + n % 16) % 16 = n % 16 := by omega
      simp only [to_u16, from_u16, h1, h2, h3]
      norm_num [to_u16]
    | shiftRight =>
      have h1 : (0x2400 + n % 16) / 4096 = 2 := by omega
      have h2 : (0x2400 + n % 16) / 1024 % 4 = 1 := by omega
      have h3 : (0x2400 + n % 16) % 16 = n % 16 := by omega
      simp only [to_u16, from_u16, h1, h2, h3]
      norm_num [to_u16]
    | rotateLeft =>
      have h1 : (0x2800 + n % 16) / 4096 = 2 := by omega
      have h2 : (0x2800 + n % 16) / 1024 % 4 = 2 := by omega
      have h3 : (0x2800 + n % 16) % 16 = n % 16 := by omega
      simp only [to_u16, from_u16, h1, h2, h3]
      norm_num [to_u16]
    | rotateRight =>
      have h1 : (0x2c00 + n % 16) / 4096 = 2 := by omega
      have h2 : (0x2c00 + n % 16) / 1024 % 4 = 3 := by omega
      have h3 : (0x2c00 + n % 16) % 16 = n % 16 := by omega
      simp only [to_u16, from_u16, h1, h2, h3]
      norm_num [to_u16]
  | load a =>
    obtain ⟨h1, h2⟩ := addr_case 0x3000 3 rfl
    simp only [Instruction.address, Option.getD] at h1 h2
    simp only [to_u16, from_u16, h1, h2]
    norm_num [to_u16]
  | store a =>
    obtain ⟨h1, h2⟩ := addr_case 0x4000 4 rfl
    simp only [Instruction.address, Option.getD] at h1 h2
    simp only [to_u16, from_u16, h1, h2]
    norm_num [to_u16]
  | add a =>
    obtain ⟨h1, h2⟩ := addr_case 0x5000 5 rfl
    simp only [Instruction.address, Option.getD] at h1 h2
    simp only [to_u16, from_u16, h1, h2]
    norm_num [to_u16]
  | sub a =>
    obtain ⟨h1, h2⟩ := addr_case 0x6000 6 rfl
    simp only [Instruction.address, Option.getD] at h1 h2
    simp only [to_u16, from_u16, h1, h2]
    norm_num [to_u16]
  | and a =>
    obtain ⟨h1, h2⟩ := addr_case 0x7000 7 rfl
    simp only [Instruction.address, Option.getD] at h1 h2
    simp only [to_u16, from_u16, h1, h2]
    norm_num [to_u16]
  | or a =>
    obtain ⟨h1, h2⟩ := addr_case 0x8000 8 rfl
    simp only [Instruction.address, Option.getD] at h1 h2
    simp only [to_u16, from_u16, h1, h2]
    norm_num [to_u16]
  | xor a =>
    obtain ⟨h1, h2⟩ := addr_case 0x9000 9 rfl
    simp only [Instruction.address, Option.getD] at h1 h2
    simp only [to_u16, from_u16, h1, h2]
    norm_num [to_u16]
  | not => rfl
  | nop => rfl
  | jmp a =>
    obtain ⟨h1, h2⟩ := addr_case 0xc000 12 rfl
    simp only [Instruction.address, Option.getD] at h1 h2
    simp only [to_u16, from_u16, h1, h2]
    norm_num [to_u16]
  | jmpe a =>
    obtain ⟨h1, h2⟩ := addr_case 0xd000 13 rfl
    simp only [Instruction.address, Option.getD] at h1 h2
    simp only [to_u16, from_u16, h1, h2]
    norm_num [to_u16]
  | jmpl a =>
    obtain ⟨h1, h2⟩ := addr_case 0xe000 14 rfl
    simp only [Instruction.address, Option.getD] at h1 h2
    simp only [to_u16, from_u16, h1, h2]
    norm_num [to_u16]
  | brl a =>
    obtain ⟨h1, h2⟩ := addr_case 0xf000 15 rfl
    simp only [Instruction.address, Option.getD] at h1 h2
    simp only [to_u16, from_u16, h1, h2]
    norm_num [to_u16]

/-- C1 counterexample: the word `0x0123` lies in the `halt` opcode group,
whose low 12 bits are discarded by `from_u16`, so the round trip returns
`0x0000`, not `0x0123`.  This falsifies the claim that
`to_u16 (from_u16 w) = w` for every 16-bit word. -/
theorem c1_roundtrip_counterexample :
    to_u16 (from_u16 0x0123) = 0x0000 ∧ to_u16 (from_u16 0x0123) ≠ 0x0123 := by
  decide

/-- C1 (amended): for every 16-bit word `w`, `to_u16 (from_u16 w)` is a
fixed point of the round trip, and the round trip returns `w` itself
exactly when `w` is the encoding of some instruction, i.e. when the bits
unused by `w`'s opcode group are zero.  Words such as `0x0123` with
nonzero unused bits are canonicalised, not recovered. -/
theorem c1_roundtrip_amended (w : Nat) (hw : w < 65536) :
    to_u16 (from_u16 (to_u16 (from_u16 w))) = to_u16 (from_u16 w) ∧
      (to_u16 (from_u16 w) = w ↔ ∃ i, to_u16 i = w) := by
  refine ⟨to_u16_from_u16_to_u16 (from_u16 w), ?_, ?_⟩
  · intro h
    exact ⟨from_u16 w, h⟩
  · rintro ⟨i, rfl⟩
    exact to_u16_from_u16_to_u16 i

/-- C1 witness: the amended theorem applied at the concrete word
`0x3123`, which is canonical (a `load` with all address bits in range),
so the round trip fixes it. -/
theorem c1_roundtrip_amended_witness :
    to_u16 (from_u16 (to_u16 (from_u16 0x3123))) = to_u16 (from_u16 0x3123) ∧
      (to_u16 (from_u16 0x3123) = 0x3123 ↔ ∃ i, to_u16 i = 0x3123) :=
  c1_roundtrip_amended 0x3123 (by decide)

/-- The error taxonomy of the crate (`ErrorKind` in `src/lib.rs`). -/
inductive ErrorKind
  | halted
  | userInput (msg : String)
  | outOfBounds
  | programTooLong
  | asm (msg : String) (line : Nat)
  | debug (msg : String)
  | io (msg : String)
deriving DecidableEq

/-- Rust `str::trim`: drop whitespace from both ends of a character
list. -/
def trimChars (cs : List Char) : List Char :=
  ((cs.dropWhile Char.isWhitespace).reverse.dropWhile Char.isWhitespace).reverse

/-- The numeric value of one hexadecimal digit, if the character is
one. -/
def hexDigit? (c : Char) : Option Nat :=
  if '0' ≤ c ∧ c ≤ '9' then some (c.toNat - '0'.toNat)
  else if 'a' ≤ c ∧ c ≤ 'f' then some (c.toNat - 'a'.toNat + 10)
  else if 'A' ≤ c ∧ c ≤ 'F' then some (c.toNat - 'A'.toNat + 10)
  else none

/-- Accumulate the value of a hexadecimal digit string. -/
def parseHexNatAux : List Char → Nat → Option Nat
  | [], acc => some acc
  | c :: rest, acc =>
    match hexDigit? c with
    | some d => parseHexNatAux rest (acc * 16 + d)
    | none => none

/-- Rust `u16::from_str_radix(s, 16)`: an optional leading `+`, then a
nonempty string of hexadecimal digits whose value fits in 16 bits
(overflow is a parse error). -/
def parseHexU16 (cs : List Char) : Option Nat :=
  let cs := match cs with
    | '+' :: rest => rest
    | rest => rest
  if cs.isEmpty then none
  else match parseHexNatAux cs 0 with
    | some v => if v < 65536 then some v else none
    | none => none

/-- The numeric value of one decimal digit, if the character is one. -/
def decDigit? (c : Char) : Option Nat :=
  if '0' ≤ c ∧ c ≤ '9' then some (c.toNat - '0'.toNat) else none

/-- Accumulate the value of a decimal digit string. -/
def parseDecNatAux : List Char → Nat → Option Nat
  | [], acc => some acc
  | c :: rest, acc =>
    match decDigit? c with
    | some d => parseDecNatAux rest (acc * 10 + d)
    | none => none

/-- Rust `str::parse::<u16>`: an optional leading `+`, then a nonempty
string of decimal digits whose value fits in 16 bits. -/
def parseDecU16 (cs : List Char) : Option Nat :=
  let cs := match cs with
    | '+' :: rest => rest
    | rest => rest
  if cs.isEmpty then none
  else match parseDecNatAux cs 0 with
    | some v => if v < 65536 then some v else none
    | none => none

/-- Rust `str::split_whitespace`, accumulating the current token in
reverse: splits at runs of whitespace and returns the nonempty tokens. -/
def splitWsAux : List Char → List Char → List (List Char)
  | [], acc => if acc.isEmpty then [] else [acc.reverse]
  | c :: rest, acc =>
    if c.isWhitespace then
      if acc.isEmpty then splitWsAux rest []
      else acc.reverse :: splitWsAux rest []
    else splitWsAux rest (c :: acc)

/-- Rust `str::split_whitespace` on a character list. -/
def splitWs (cs : List Char) : List (List Char) :=
  splitWsAux cs []

/-- `l.find("//")` followed by `&l[..n]` in the assembler's first pass:
everything from the first `//` onward is removed. -/
def stripComment : List Char → List Char
  | [] => []
  | '/' :: '/' :: _ => []
  | c :: rest => c :: stripComment rest

/-- `part.find(':')` followed by the slices `&part[..idx]` and
`&part[idx + 1..]`: splits a token at its first colon, if any. -/
def labelSplit : List Char → Option (List Char × List Char)
  | [] => none
  | c :: rest =>
    if c = ':' then some ([], rest)
    else match labelSplit rest with
      | none => none
      | some (pre, post) => some (c :: pre, post)

/-- The simulator state (`Simulator` in `src/simulator.rs`).  `memory` is
the 4096-word image (modelled as a total function; the simulator only
ever indexes it below 4096), `acc` is the accumulator's 16-bit pattern
(an `i16` in the source), `ir` the instruction register, `pc` the program
counter and `len` the live program length.  The input and output streams
are modelled as the list of lines not yet read and the list of chunks
written so far. -/
structure SimState where
  memory : Nat → Nat
  acc : Nat
  ir : Nat
  pc : Nat
  halted : Bool
  len : Nat
  input : List String
  output : List String
  show_prompt : Bool

/-- `Simulator::from_memory`: build a simulator over the given memory
image.  The standard input stream contents are a parameter `stdin` since
they are external to the program. -/
def from_memory (memory : Nat → Nat) (len : Nat) (stdin : List String) : SimState :=
  { memory := memory
    acc := 0
    ir := 0
    pc := 0
    halted := false
    len := len
    input := stdin
    output := []
    show_prompt := true }

/-- `Simulator::from_instructions`: load from a word list, zero-filling
the rest of the 4096-word image. -/
def from_instructions (input : List Nat) (stdin : List String) : Except ErrorKind SimState :=
  if input.length > 4096 then .error .programTooLong
  else .ok (from_memory (fun a => input.getD a 0) input.length stdin)

/-- The loop of `Simulator::from_binary`: consume a little-endian byte
stream, pairing bytes into words.  `pend` holds a low byte waiting for
its high byte (the `upper` flag of the source); the bounds check fires
per byte, before the write. -/
def from_binary_go : List Nat → List Nat → Option Nat → Except ErrorKind (List Nat × Option Nat)
  | [], ws, pend => .ok (ws, pend)
  | b :: rest, ws, pend =>
    if ws.length ≥ 4096 then .error .programTooLong
    else match pend with
      | none => from_binary_go rest ws (some (b % 256))
      | some lo => from_binary_go rest (ws ++ [lo + b % 256 * 256]) none

/-- `Simulator::from_binary`: a trailing unpaired low byte is written
into the image at index `len` but not counted in `len`. -/
def from_binary (bytes : List Nat) (stdin : List String) : Except ErrorKind SimState :=
  match from_binary_go bytes [] none with
  | .error e => .error e
  | .ok (ws, pend) =>
    .ok (from_memory
      (fun a => match pend with
        | some lo => if a = ws.length then lo else ws.getD a 0
        | none => ws.getD a 0)
      ws.length stdin)

/-- The loop of `Simulator::from_hex` as a word-list builder.  `panic`
records that the Rust code slices `&l[..4]` out of range: a trimmed,
non-blank, non-comment line shorter than 4 characters makes the program
panic rather than return an error. -/
inductive HexData
  | ok (words : List Nat)
  | err (e : ErrorKind)
  | panic
deriving DecidableEq

/-- The line loop of `Simulator::from_hex`: trim each line, skip blanks
and `//` comments, slice the first four characters (panicking when there
are fewer than four) and parse them as a hexadecimal word; the 4096-word
ceiling is checked after the parse. -/
def fromHexGo : List String → List Nat → HexData
  | [], ws => .ok ws
  | l :: rest, ws =>
    let t := trimChars l.toList
    if t.isEmpty then fromHexGo rest ws
    else if t.take 2 = ['/', '/'] then fromHexGo rest ws
    else if t.length < 4 then .panic
    else match parseHexU16 (t.take 4) with
      | none =>
        .err (.userInput
          ("expected hexadecimal word at start of line: '" ++ String.mk t ++ "'"))
      | some w =>
        if ws.length ≥ 4096 then .err .programTooLong
        else fromHexGo rest (ws ++ [w])

/-- `Simulator::from_hex`: `none` models the panic on a short line. -/
def from_hex (ls : List String) (stdin : List String) : Option (Except ErrorKind SimState) :=
  match fromHexGo ls [] with
  | .panic => none
  | .err e => some (.error e)
  | .ok ws => some (.ok (from_memory (fun a => ws.getD a 0) ws.length stdin))

/-- `Simulator::regs`: the registers `(acc, ir, pc)`. -/
def regs (s : SimState) : Nat × Nat × Nat :=
  (s.acc, s.ir, s.pc)

/-- `Simulator::is_halted`. -/
def is_halted (s : SimState) : Bool :=
  s.halted

/-- `BufRead::read_line` on the simulator's input stream: the next line,
or an empty line at end of stream. -/
def read_line (s : SimState) : String × SimState :=
  match s.input with
  | [] => ("", s)
  | l :: rest => (l, { s with input := rest })

/-- The input prompt written by `read_hex`/`read_u8` when
`show_prompt` is set. -/
def prompt (msg : String) (s : SimState) : SimState :=
  if s.show_prompt then { s with output := s.output ++ [msg] } else s

/-- `Simulator::read_hex`: read one line, trim it, require 1 to 4
characters and parse them as a hexadecimal word; anything else is a
`UserInput` error.  All mutations (prompt, consumed line) persist even
when an error is returned, as with `&mut self` in the source. -/
def read_hex (s : SimState) : Except ErrorKind Nat × SimState :=
  let s1 := prompt ("Enter hexadecimal word: ") s
  let (line, s2) := read_line s1
  let hex := trimChars line.toList
  if 1 ≤ hex.length ∧ hex.length ≤ 4 then
    match parseHexU16 hex with
    | some v => (.ok v, s2)
    | none =>
      (.error (.userInput ("'" ++ String.mk hex ++ "' is not a valid hexadecimal word")), s2)
  else
    (.error (.userInput ("'" ++ String.mk hex ++
      "' is not a valid hexadecimal word (should be at most 4 hexadecimal digits)")), s2)

/-- `Simulator::read_u8`: read one line, trim it, and require exactly one
byte.  A single character is one byte exactly when it is ASCII, so a
single non-ASCII character also fails. -/
def read_u8 (s : SimState) : Except ErrorKind Nat × SimState :=
  let s1 := prompt ("Enter ASCII character: ") s
  let (line, s2) := read_line s1
  let tr := trimChars line.toList
  match tr with
  | [c] =>
    if c.toNat < 128 then (.ok c.toNat, s2)
    else (.error (.userInput ("expected a single ASCII character; got '" ++ String.mk tr ++ "'")), s2)
  | _ =>
    (.error (.userInput ("expected a single ASCII character; got '" ++ String.mk tr ++ "'")), s2)

/-- One lowercase hexadecimal digit. -/
def hexChar (n : Nat) : Char :=
  if n < 10 then Char.ofNat ('0'.toNat + n) else Char.ofNat ('a'.toNat + n - 10)

/-- The `{:04x}` rendering of a 16-bit pattern (the accumulator is
always below `2^16`, so four digits suffice). -/
def toHex4 (n : Nat) : String :=
  String.mk [hexChar (n / 4096 % 16), hexChar (n / 256 % 16), hexChar (n / 16 % 16), hexChar (n % 16)]

/-- Append a chunk to the simulator's output stream. -/
def write_out (msg : String) (s : SimState) : SimState :=
  { s with output := s.output ++ [msg] }

/-- `Simulator::execute`: run one decoded instruction.  The mutated state
is returned alongside the optional error, because the Rust method takes
`&mut self` and partial mutations persist when an error is returned.
Signed (`i16`) accumulator operations are expressed on the 16-bit
pattern: wrapping add/sub are addition mod `2^16`, `acc < 0` is
`pattern ≥ 2^15`, the logical right shift is division, and the casts
`as i16`/`as u16` preserve the pattern. -/
def execute (ins : Instruction) (s : SimState) : Option ErrorKind × SimState :=
  if s.halted then (some .halted, s)
  else match ins with
    | .halt => (none, { s with halted := true })
    | .io .readHex =>
      match read_hex s with
      | (.ok v, s') => (none, { s' with acc := v })
      | (.error e, s') => (some e, s')
    | .io .readChar =>
      match read_u8 s with
      | (.ok b, s') => (none, { s' with acc := b })
      | (.error e, s') => (some e, s')
    | .io .writeHex => (none, write_out (toHex4 s.acc ++ "\n") s)
    | .io .writeChar => (none, write_out (String.mk [Char.ofNat (s.acc % 256)] ++ "\n") s)
    | .shift .shiftLeft n => (none, { s with acc := s.acc * 2 ^ n % 65536 })
    | .shift .shiftRight n => (none, { s with acc := s.acc / 2 ^ n })
    | .shift .rotateLeft n =>
      (none, { s with acc := s.acc * 2 ^ (n % 16) % 65536 + s.acc / 2 ^ (16 - n % 16) })
    | .shift .rotateRight n =>
      (none, { s with acc := s.acc / 2 ^ (n % 16) + s.acc % 2 ^ (n % 16) * 2 ^ (16 - n % 16) })
    | .load a => (none, { s with acc := s.memory a % 65536 })
    | .store a => (none, { s with memory := fun x => if x = a then s.acc else s.memory x })
    | .add a => (none, { s with acc := (s.acc + s.memory a % 65536) % 65536 })
    | .sub a => (none, { s with acc := (s.acc + (65536 - s.memory a % 65536)) % 65536 })
    | .and a => (none, { s with acc := Nat.land s.acc (s.memory a % 65536) })
    | .or a => (none, { s with acc := Nat.lor s.acc (s.memory a % 65536) })
    | .xor a => (none, { s with acc := Nat.xor s.acc (s.memory a % 65536) })
    | .not => (none, { s with acc := 65535 - s.acc % 65536 })
    | .nop => (none, s)
    | .jmp a => (none, { s with pc := a })
    | .jmpe a => (none, if s.acc = 0 then { s with pc := a } else s)
    | .jmpl a => (none, if 32768 ≤ s.acc % 65536 then { s with pc := a } else s)
    | .brl a => (none, { s with acc := s.pc % 65536, pc := a })

/-- `Simulator::current_instruction`: decode the word at the program
counter, or fail with `OutOfBounds` when the counter is past the
4096-word image. -/
def current_instruction (s : SimState) : Except ErrorKind Instruction :=
  if s.pc ≥ 4096 then .error .outOfBounds
  else .ok (from_u16 (s.memory s.pc))

/-- `Simulator::step`: fetch, increment the program counter, execute.
Note that the fetched word is *not* written to the instruction register
(`ir`) — the source never assigns that field — and that the increment
happens before `execute`'s halted check. -/
def step (s : SimState) : Except ErrorKind Bool × SimState :=
  match current_instruction s with
  | .error e => (.error e, s)
  | .ok ins =>
    let s1 := { s with pc := s.pc + 1 }
    match execute ins s1 with
    | (none, s2) => (.ok s2.halted, s2)
    | (some e, s2) => (.error e, s2)

/-- The states reachable from `s0` by any sequence of `step` calls
(whether each call succeeds or fails, the mutated state is kept, as with
`&mut self` in the source). -/
inductive Reachable (s0 : SimState) : SimState → Prop
  | refl : Reachable s0 s0
  | next (s : SimState) : Reachable s0 s → Reachable s0 (step s).2

theorem prompt_halted (m : String) (s : SimState) : (prompt m s).halted = s.halted := by
  unfold prompt; split <;> rfl

theorem prompt_pc (m : String) (s : SimState) : (prompt m s).pc = s.pc := by
  unfold prompt; split <;> rfl

theorem prompt_input (m : String) (s : SimState) : (prompt m s).input = s.input := by
  unfold prompt; split <;> rfl

theorem read_line_halted (s : SimState) : (read_line s).2.halted = s.halted := by
  unfold read_line; rcases s.input with _ | ⟨l, rest⟩ <;> rfl

theorem read_line_pc (s : SimState) : (read_line s).2.pc = s.pc := by
  unfold read_line; rcases s.input with _ | ⟨l, rest⟩ <;> rfl

/-- The state returned by `read_hex` is always the post-prompt,
post-read state, whatever the parse outcome. -/
theorem read_hex_snd (s : SimState) :
    (read_hex s).2 = (read_line (prompt ("Enter hexadecimal word: ") s)).2 := by
  unfold read_hex
  rcases hrl : read_line (prompt ("Enter hexadecimal word: ") s) with ⟨line, s2⟩
  simp only [hrl]
  split
  · split <;> rfl
  · rfl

theorem read_u8_snd (s : SimState) :
    (read_u8 s).2 = (read_line (prompt ("Enter ASCII character: ") s)).2 := by
  unfold read_u8
  rcases hrl : read_line (prompt ("Enter ASCII character: ") s) with ⟨line, s2⟩
  simp only [hrl]
  split
  · split <;> rfl
  · rfl

theorem read_hex_halted (s : SimState) : (read_hex s).2.halted = s.halted := by
  rw [read_hex_snd, read_line_halted, prompt_halted]

theorem read_hex_pc (s : SimState) : (read_hex s).2.pc = s.pc := by
  rw [read_hex_snd, read_line_pc, prompt_pc]

theorem read_u8_halted (s : SimState) : (read_u8 s).2.halted = s.halted := by
  rw [read_u8_snd, read_line_halted, prompt_halted]

theorem read_u8_pc (s : SimState) : (read_u8 s).2.pc = s.pc := by
  rw [read_u8_snd, read_line_pc, prompt_pc]

/-- The outcome of `read_hex` is either a parsed word or a `UserInput`
error. -/
theorem read_hex_fst (s : SimState) :
    (∃ v, (read_hex s).1 = .ok v) ∨ ∃ m, (read_hex s).1 = .error (.userInput m) := by
  unfold read_hex
  rcases hrl : read_line (prompt ("Enter hexadecimal word: ") s) with ⟨line, s2⟩
  simp only [hrl]
  split
  · split
    · exact Or.inl ⟨_, rfl⟩
    · exact Or.inr ⟨_, rfl⟩
  · exact Or.inr ⟨_, rfl⟩

/-- The outcome of `read_u8` is either a byte or a `UserInput` error. -/
theorem read_u8_fst (s : SimState) :
    (∃ v, (read_u8 s).1 = .ok v) ∨ ∃ m, (read_u8 s).1 = .error (.userInput m) := by
  unfold read_u8
  rcases hrl : read_line (prompt ("Enter ASCII character: ") s) with ⟨line, s2⟩
  simp only [hrl]
  split
  · split
    · exact Or.inl ⟨_, rfl⟩
    · exact Or.inr ⟨_, rfl⟩
  · exact Or.inr ⟨_, rfl⟩

/-- A failing `read_hex` always reports a `UserInput` error. -/
theorem read_hex_err (s : SimState) (e : ErrorKind) (h : (read_hex s).1 = .error e) :
    ∃ m, e = .userInput m := by
  rcases read_hex_fst s with ⟨v, hv⟩ | ⟨m, hm⟩
  · rw [hv] at h; exact absurd h (by simp)
  · rw [hm] at h; injection h with h; exact ⟨m, h.symm⟩

/-- A failing `read_u8` always reports a `UserInput` error. -/
theorem read_u8_err (s : SimState) (e : ErrorKind) (h : (read_u8 s).1 = .error e) :
    ∃ m, e = .userInput m := by
  rcases read_u8_fst s with ⟨v, hv⟩ | ⟨m, hm⟩
  · rw [hv] at h; exact absurd h (by simp)
  · rw [hm] at h; injection h with h; exact ⟨m, h.symm⟩

/-- Characterisation of a failing `execute`: the halted flag and the
program counter are never changed by a failing call; the `Halted` error
occurs only on an already-halted machine and leaves the state untouched;
no other error than `Halted` or `UserInput` can arise. -/
theorem execute_err (ins : Instruction) (s : SimState) (e : ErrorKind)
    (h : (execute ins s).1 = some e) :
    (execute ins s).2.halted = s.halted ∧
    (execute ins s).2.pc = s.pc ∧
    (e = .halted ∨ ∃ m, e = .userInput m) ∧
    (e = .halted → s.halted = true ∧ (execute ins s).2 = s) := by
  by_cases hh : s.halted
  · have hex : execute ins s = (some .halted, s) := by unfold execute; rw [if_pos hh]
    rw [hex] at h ⊢
    injection h with h
    subst h
    exact ⟨rfl, rfl, Or.inl rfl, fun _ => ⟨hh, rfl⟩⟩
  · unfold execute at h ⊢
    simp only [hh, if_false, Bool.false_eq_true] at h ⊢
    cases ins with
    | io op =>
      cases op with
      | readHex =>
        rcases hr : read_hex s with ⟨r, s'⟩
        have hhal := read_hex_halted s
        have hpc := read_hex_pc s
        rw [hr] at hhal hpc
        cases r with
        | ok v =>
          simp only [hr] at h
          exact absurd h (by simp)
        | error e' =>
          have he := read_hex_err s e' (by rw [hr])
          simp only [hr] at h ⊢
          injection h with h
          subst h
          refine ⟨hhal.trans (by simpa using hh), hpc, Or.inr he, ?_⟩
          rintro rfl
          obtain ⟨m, hm⟩ := he
          exact absurd hm (by simp)
      | readChar =>
        rcases hr : read_u8 s with ⟨r, s'⟩
        have hhal := read_u8_halted s
        have hpc := read_u8_pc s
        rw [hr] at hhal hpc
        cases r with
        | ok v =>
          simp only [hr] at h
          exact absurd h (by simp)
        | error e' =>
          have he := read_u8_err s e' (by rw [hr])
          simp only [hr] at h ⊢
          injection h with h
          subst h
          refine ⟨hhal.trans (by simpa using hh), hpc, Or.inr he, ?_⟩
          rintro rfl
          obtain ⟨m, hm⟩ := he
          exact absurd hm (by simp)
      | writeHex => simp at h
      | writeChar => simp at h
    | halt => simp at h
    | shift op n => cases op <;> simp at h
    | load a => simp at h
    | store a => simp at h
    | add a => simp at h
    | sub a => simp at h
    | and a => simp at h
    | or a => simp at h
    | xor a => simp at h
    | not => simp at h
    | nop => simp at h
    | jmp a => simp at h
    | jmpe a => simp at h
    | jmpl a => simp at h
    | brl a => simp at h

/-- The program counter after `execute` is either unchanged or the
instruction's own address argument. -/
theorem execute_pc (ins : Instruction) (s : SimState) :
    (execute ins s).2.pc = s.pc ∨
      ∃ a, ins.address = some a ∧ (execute ins s).2.pc = a := by
  by_cases hh : s.halted
  · unfold execute; simp [hh]
  · unfold execute
    simp only [hh, if_false, Bool.false_eq_true]
    cases ins with
    | io op =>
      cases op with
      | readHex =>
        rcases hr : read_hex s with ⟨r, s'⟩
        have hpc := read_hex_pc s
        rw [hr] at hpc
        cases r <;> simp only [hr] <;> exact Or.inl hpc
      | readChar =>
        rcases hr : read_u8 s with ⟨r, s'⟩
        have hpc := read_u8_pc s
        rw [hr] at hpc
        cases r <;> simp only [hr] <;> exact Or.inl hpc
      | writeHex => left; rfl
      | writeChar => left; rfl
    | halt => left; rfl
    | shift op n => cases op <;> left <;> rfl
    | load a => left; rfl
    | store a => left; rfl
    | add a => left; rfl
    | sub a => left; rfl
    | and a => left; rfl
    | or a => left; rfl
    | xor a => left; rfl
    | not => left; rfl
    | nop => left; rfl
    | jmp a => right; exact ⟨a, rfl, rfl⟩
    | jmpe a =>
      by_cases hz : s.acc = 0
      · right; exact ⟨a, rfl, by simp [hz]⟩
      · left; simp [hz]
    | jmpl a =>
      by_cases hz : 32768 ≤ s.acc % 65536
      · right; exact ⟨a, rfl, by simp [hz]⟩
      · left; simp [hz]
    | brl a => right; exact ⟨a, rfl, rfl⟩

/-- The address field of a decoded instruction is either absent or the
low 12 bits of the word. -/
theorem from_u16_address_cases (w : Nat) :
    (from_u16 w).address = none ∨ (from_u16 w).address = some (w % 4096) := by
  unfold from_u16
  by_cases h0 : w / 4096 = 0
  · rw [if_pos h0]
    exact Or.inl rfl
  rw [if_neg h0]
  by_cases h1 : w / 4096 = 1
  · rw [if_pos h1]
    exact Or.inl rfl
  rw [if_neg h1]
  by_cases h2 : w / 4096 = 2
  · rw [if_pos h2]
    exact Or.inl rfl
  rw [if_neg h2]
  by_cases h3 : w / 4096 = 3
  · rw [if_pos h3]
    exact Or.inr rfl
  rw [if_neg h3]
  by_cases h4 : w / 4096 = 4
  · rw [if_pos h4]
    exact Or.inr rfl
  rw [if_neg h4]
  by_cases h5 : w / 4096 = 5
  · rw [if_pos h5]
    exact Or.inr rfl
  rw [if_neg h5]
  by_cases h6 : w / 4096 = 6
  · rw [if_pos h6]
    exact Or.inr rfl
  rw [if_neg h6]
  by_cases h7 : w / 4096 = 7
  · rw [if_pos h7]
    exact Or.inr rfl
  rw [if_neg h7]
  by_cases h8 : w / 4096 = 8
  · rw [if_pos h8]
    exact Or.inr rfl
  rw [if_neg h8]
  by_cases h9 : w / 4096 = 9
  · rw [if_pos h9]
    exact Or.inr rfl
  rw [if_neg h9]
  by_cases h10 : w / 4096 = 10
  · rw [if_pos h10]
    exact Or.inl rfl
  rw [if_neg h10]
  by_cases h11 : w / 4096 = 11
  · rw [if_pos h11]
    exact Or.inl rfl
  rw [if_neg h11]
  by_cases h12 : w / 4096 = 12
  · rw [if_pos h12]
    exact Or.inr rfl
  rw [if_neg h12]
  by_cases h13 : w / 4096 = 13
  · rw [if_pos h13]
    exact Or.inr rfl
  rw [if_neg h13]
  by_cases h14 : w / 4096 = 14
  · rw [if_pos h14]
    exact Or.inr rfl
  rw [if_neg h14]
  by_cases h15 : w / 4096 = 15
  · rw [if_pos h15]
    exact Or.inr rfl
  rw [if_neg h15]
  exact Or.inl rfl

/-- Decoded address fields are always masked to 12 bits. -/
theorem from_u16_address_lt (w a : Nat) (h : (from_u16 w).address = some a) :
    a < 4096 := by
  rcases from_u16_address_cases w with hn | hs
  · rw [hn] at h
    exact Option.noConfusion h
  · rw [hs] at h
    injection h with h
    omega

/-- The state component of `step` as a case split on the bounds check. -/
theorem step_snd (s : SimState) :
    (step s).2 = if 4096 ≤ s.pc then s
      else (execute (from_u16 (s.memory s.pc)) { s with pc := s.pc + 1 }).2 := by
  unfold step current_instruction
  by_cases hpc : 4096 ≤ s.pc
  · rw [if_pos hpc, if_pos hpc]
  · rw [if_neg hpc]
    dsimp only
    rcases he : execute (from_u16 (s.memory s.pc)) { s with pc := s.pc + 1 } with ⟨r, s2⟩
    rw [if_neg hpc]
    cases r <;> rfl

/-- One `step` preserves the bound `pc ≤ 4096`. -/
theorem step_pc_le (s : SimState) (h : s.pc ≤ 4096) : (step s).2.pc ≤ 4096 := by
  rw [step_snd]
  split
  · exact h
  · next hlt =>
    have hs1 : ({ s with pc := s.pc + 1 } : SimState).pc ≤ 4096 := by
      simp only []
      omega
    rcases execute_pc (from_u16 (s.memory s.pc)) { s with pc := s.pc + 1 } with hp | ⟨a, ha, hp⟩
    · rw [hp]; exact hs1
    · rw [hp]
      exact le_of_lt (from_u16_address_lt _ _ ha)

/-- C9: every simulator produced by `from_instructions`, `from_binary`
or `from_hex` starts with program counter 0, and every state reachable
from it by `step` calls keeps the counter at most 4096; moreover the
address field of the instruction decoded at any program counter is below
4096, so every memory access made inside `execute` stays inside the
4096-word image. -/
theorem c9_pc_invariant (stdin : List String) (s0 : SimState)
    (h0 : (∃ ws, from_instructions ws stdin = .ok s0) ∨
      (∃ bs, from_binary bs stdin = .ok s0) ∨
      (∃ ls, from_hex ls stdin = some (.ok s0)))
    (s : SimState) (hr : Reachable s0 s) :
    s.pc ≤ 4096 ∧ ∀ a, (from_u16 (s.memory s.pc)).address = some a → a < 4096 := by
  have hpc0 : s0.pc = 0 := by
    rcases h0 with ⟨ws, h⟩ | ⟨bs, h⟩ | ⟨ls, h⟩
    · unfold from_instructions at h
      split at h
      · exact absurd h (by simp)
      · injection h with h; rw [← h]; rfl
    · unfold from_binary at h
      split at h
      · exact absurd h (by simp)
      · next ws' pend heq =>
        injection h with h; rw [← h]; rfl
    · unfold from_hex at h
      split at h
      · exact absurd h (by simp)
      · exact absurd h (by simp)
      · injection h with h; injection h with h; rw [← h]; rfl
  refine ⟨?_, fun a ha => from_u16_address_lt _ a ha⟩
  induction hr with
  | refl => omega
  | next s' _ ih => exact step_pc_le s' ih

/-- C9 witness: the empty program loaded through `from_instructions`
satisfies the invariant at its initial state. -/
theorem c9_pc_invariant_witness :
    (from_memory (fun a => ([] : List Nat).getD a 0) 0 []).pc ≤ 4096 ∧
      ∀ a, (from_u16 ((from_memory (fun a => ([] : List Nat).getD a 0) 0 []).memory
        (from_memory (fun a => ([] : List Nat).getD a 0) 0 []).pc)).address = some a →
        a < 4096 :=
  c9_pc_invariant [] (from_memory (fun a => ([] : List Nat).getD a 0) 0 [])
    (Or.inl ⟨[], rfl⟩) _ Reachable.refl

/-- Equality of `Except` results is decidable whenever both component
types have decidable equality (used to evaluate concrete `step`
outcomes). -/
instance exceptDecEq {e a : Type} [DecidableEq e] [DecidableEq a] :
    DecidableEq (Except e a)
  | .error x, .error y =>
    if h : x = y then .isTrue (by rw [h]) else .isFalse (fun hc => h (by injection hc))
  | .error _, .ok _ => .isFalse (fun hc => Except.noConfusion hc)
  | .ok _, .error _ => .isFalse (fun hc => Except.noConfusion hc)
  | .ok x, .ok y =>
    if h : x = y then .isTrue (by rw [h]) else .isFalse (fun hc => h (by injection hc))

/-- The simulator used to exhibit the unwritten instruction register: a
single `nop` (`0xB000`) at address 0. -/
def c2sim : SimState := from_memory (fun a => [0xB000].getD a 0) 1 []

/-- C2: the fetched word is never stored into the instruction register.
Stepping the `nop` program succeeds and increments the program counter,
but the `ir` register still holds 0 and not the fetched word `0xB000`:
`Simulator::step` never assigns the `ir` field, contradicting the
documented role of the instruction register. -/
theorem c2_ir_never_written :
    c2sim.memory c2sim.pc = 0xB000 ∧
    (step c2sim).1 = .ok false ∧
    (step c2sim).2.pc = c2sim.pc + 1 ∧
    (step c2sim).2.ir = 0 ∧
    (step c2sim).2.ir ≠ c2sim.memory c2sim.pc := by
  decide

/-- The simulator used for the C3 counterexample: a halted machine with
program counter 0. -/
def c3sim : SimState := { from_memory (fun _ => 0) 0 [] with halted := true }

/-- C3 counterexample: on an already-halted machine both consecutive
`step` calls fail with `Halted`, but the state is *not* unchanged
between them — each failing call increments the program counter, because
`step` increments `pc` before `execute` checks the halted flag. -/
theorem c3_stuck_counterexample :
    (step c3sim).1 = .error .halted ∧
    (step (step c3sim).2).1 = .error .halted ∧
    (step c3sim).2.pc ≠ c3sim.pc := by
  decide

/-- C3 (amended): a failing `step` never changes the halted flag (no
transition to halted); an `OutOfBounds` failure leaves the state
entirely unchanged and a further call deterministically repeats it; but
a `Halted` or `UserInput` failure happens after the fetch increment, so
the program counter advances by one across each such failing call, and
`Halted` is only reported on an already-halted machine. -/
theorem c3_amended (s : SimState) (e : ErrorKind) (s' : SimState)
    (h : step s = (.error e, s')) :
    s'.halted = s.halted ∧
    (e = .outOfBounds → s' = s ∧ 4096 ≤ s.pc ∧ step s' = (.error .outOfBounds, s')) ∧
    (e ≠ .outOfBounds → s'.pc = s.pc + 1) ∧
    (e = .halted → s.halted = true) := by
  unfold step at h
  unfold current_instruction at h
  by_cases hpc : s.pc ≥ 4096
  · rw [if_pos hpc] at h
    dsimp only at h
    injection h with h1 h2
    injection h1 with h1
    subst h1
    subst h2
    refine ⟨rfl, fun _ => ⟨rfl, hpc, ?_⟩, fun hne => absurd rfl hne, by simp⟩
    unfold step current_instruction
    rw [if_pos hpc]
  · rw [if_neg hpc] at h
    dsimp only at h
    rcases he : execute (from_u16 (s.memory s.pc)) { s with pc := s.pc + 1 } with ⟨r, s2⟩
    rw [he] at h
    cases r with
    | none => simp at h
    | some e' =>
      dsimp only at h
      injection h with h1 h2
      injection h1 with h1
      subst h2
      rw [← h1]
      have hc := execute_err (from_u16 (s.memory s.pc)) { s with pc := s.pc + 1 } e'
        (by rw [he])
      rw [he] at hc
      obtain ⟨hch, hcp, hcls, hchalt⟩ := hc
      refine ⟨hch, ?_, fun _ => hcp, fun heq => (hchalt heq).1⟩
      intro heq
      rcases hcls with h' | ⟨m, h'⟩ <;> subst h' <;> exact absurd heq (by simp)

/-- C3 witness: the amended theorem applied to the halted machine
`c3sim`, whose failing `step` reports `Halted` and advances the
counter. -/
theorem c3_amended_witness :
    (step c3sim).2.halted = c3sim.halted ∧
    (ErrorKind.halted = .outOfBounds → (step c3sim).2 = c3sim ∧ 4096 ≤ c3sim.pc ∧
      step (step c3sim).2 = (.error .outOfBounds, (step c3sim).2)) ∧
    (ErrorKind.halted ≠ .outOfBounds → (step c3sim).2.pc = c3sim.pc + 1) ∧
    (ErrorKind.halted = .halted → c3sim.halted = true) :=
  c3_amended c3sim .halted (step c3sim).2 rfl

/-- The simulator used for the C4 counterexample: halted and with the
program counter already out of bounds. -/
def c4sim : SimState := { from_memory (fun _ => 0) 0 [] with halted := true, pc := 4096 }

/-- C4 counterexample: on a machine that is both halted and has
`pc ≥ 4096`, `step` reports `OutOfBounds`, not `Halted`, because the
bounds check in `current_instruction` runs before `execute`'s halted
check. -/
theorem c4_error_priority_counterexample :
    c4sim.halted = true ∧ 4096 ≤ c4sim.pc ∧
    (step c4sim).1 = .error .outOfBounds ∧
    (step c4sim).1 ≠ .error .halted := by
  decide

/-- C4 (amended): `step` fails with `OutOfBounds` whenever the program
counter is at least 4096, even on a halted machine (the bounds check has
priority); only when the counter is in range does an already-halted
machine fail with `Halted` (with the counter already incremented by the
fetch). -/
theorem c4_amended (s : SimState) :
    (4096 ≤ s.pc → step s = (.error .outOfBounds, s)) ∧
    (s.halted = true → s.pc < 4096 → step s = (.error .halted, { s with pc := s.pc + 1 })) := by
  constructor
  · intro h
    unfold step current_instruction
    rw [if_pos h]
  · intro hh hp
    unfold step current_instruction
    rw [if_neg (by omega)]
    dsimp only
    unfold execute
    simp [hh]

/-- C4 witness: the amended theorem applied to `c4sim` (both halted and
out of bounds — the first implication fires) and to `c3sim` (halted, in
range — the second implication fires). -/
theorem c4_amended_witness :
    step c4sim = (.error .outOfBounds, c4sim) ∧
    step c3sim = (.error .halted, { c3sim with pc := c3sim.pc + 1 }) :=
  ⟨(c4_amended c4sim).1 (by decide),
   (c4_amended c3sim).2 rfl (by decide)⟩

/-- C5: `shiftR` is an unsigned (logical) right shift of the
accumulator's 16-bit pattern: whenever the word at the program counter
decodes to `shiftR n` on a non-halted, in-bounds machine, `step`
succeeds and the accumulator becomes its old pattern divided by `2^n`
(zero fill, no sign extension). -/
theorem c5_shiftR_logical (s : SimState) (n : Nat)
    (hh : s.halted = false) (hp : s.pc < 4096)
    (hd : from_u16 (s.memory s.pc) = .shift .shiftRight n) :
    (step s).1 = .ok false ∧
    (step s).2.acc = s.acc / 2 ^ n ∧
    (step s).2.pc = s.pc + 1 := by
  unfold step current_instruction
  rw [if_neg (by omega)]
  dsimp only
  rw [hd]
  unfold execute
  simp [hh]

/-- The simulator used for the C5 witness: `shiftR 1` (`0x2401`) at
address 0, accumulator pattern `0x8000` (signed -32768). -/
def c5sim : SimState := { from_memory (fun a => [0x2401].getD a 0) 1 [] with acc := 0x8000 }

/-- C5 witness: shifting the pattern `0x8000` right by one yields
`0x4000`, not a sign-extended value. -/
theorem c5_shiftR_logical_witness :
    (step c5sim).1 = .ok false ∧
    (step c5sim).2.acc = 0x4000 ∧
    (step c5sim).2.pc = c5sim.pc + 1 := by
  have h := c5_shiftR_logical c5sim 1 rfl (by decide) (by decide)
  refine ⟨h.1, ?_, h.2.2⟩
  rw [h.2.1]
  decide

/-- C6: `add` and `sub` execute as wrapping two's-complement 16-bit
arithmetic between the accumulator pattern and the addressed memory
word, and always succeed on a non-halted machine — overflow is never a
fault. -/
theorem c6_add_sub_wrap (s : SimState) (a : Nat) (hh : s.halted = false) :
    execute (.add a) s = (none, { s with acc := (s.acc + s.memory a % 65536) % 65536 }) ∧
    execute (.sub a) s = (none, { s with acc := (s.acc + (65536 - s.memory a % 65536)) % 65536 }) := by
  constructor <;> (unfold execute; simp [hh])

/-- The simulator used for the C6 witness: accumulator `0x7FFF`
(+32767), every memory word 1. -/
def c6sim : SimState := { from_memory (fun _ => 1) 0 [] with acc := 0x7FFF }

/-- C6 witness: adding memory value 1 to accumulator `0x7FFF` silently
wraps to the pattern `0x8000` (-32768) with no error. -/
theorem c6_add_sub_wrap_witness :
    (execute (.add 0) c6sim).1 = none ∧
    (execute (.add 0) c6sim).2.acc = 0x8000 := by
  have h := (c6_add_sub_wrap c6sim 0 rfl).1
  rw [h]
  exact ⟨rfl, by decide⟩

/-- C7: executing `brl addr` from a non-halted state with in-range
program counter `p` sets the accumulator to `p + 1` — the address of the
instruction after the `brl`, i.e. the counter value after the fetch
increment — and then sets the program counter to `addr`. -/
theorem c7_brl_return_address (s : SimState) (addr : Nat)
    (hh : s.halted = false) (hp : s.pc < 4096)
    (hd : from_u16 (s.memory s.pc) = .brl addr) :
    (step s).1 = .ok false ∧
    (step s).2.acc = s.pc + 1 ∧
    (step s).2.pc = addr := by
  unfold step current_instruction
  rw [if_neg (by omega)]
  dsimp only
  rw [hd]
  unfold execute
  simp only [hh, if_false, Bool.false_eq_true]
  refine ⟨?_, ?_, ?_⟩ <;> first | trivial | rfl | omega

/-- The hex loader processes a concatenation of line lists by feeding
the words accumulated over the first part into the second. -/
theorem fromHexGo_append (xs ys : List String) (ws : List Nat) :
    fromHexGo (xs ++ ys) ws = match fromHexGo xs ws with
      | .ok ws' => fromHexGo ys ws'
      | .err e => .err e
      | .panic => .panic := by
  induction xs generalizing ws with
  | nil => rfl
  | cons l rest ih =>
    rw [List.cons_append]
    simp only [fromHexGo]
    by_cases h1 : (trimChars l.toList).isEmpty
    · rw [if_pos h1, if_pos h1]
      exact ih ws
    · rw [if_neg h1, if_neg h1]
      by_cases h2 : (trimChars l.toList).take 2 = ['/', '/']
      · rw [if_pos h2, if_pos h2]
        exact ih ws
      · rw [if_neg h2, if_neg h2]
        by_cases h3 : (trimChars l.toList).length < 4
        · rw [if_pos h3, if_pos h3]
        · rw [if_neg h3, if_neg h3]
          rcases hp : parseHexU16 ((trimChars l.toList).take 4) with _ | w
          · rfl
          · dsimp only
            by_cases h4 : ws.length ≥ 4096
            · rw [if_pos h4, if_pos h4]
            · rw [if_neg h4, if_neg h4]
              exact ih (ws ++ [w])

/-- C10: `from_hex` slices the first four characters of every trimmed
non-blank, non-comment line unconditionally.  After any prefix that
loads cleanly, a qualifying line shorter than 4 characters makes the
loader panic (`&l[..4]` is out of range) instead of returning an `Io` or
`UserInput` error, while a qualifying line longer than 4 characters is
accepted with only its first four characters parsed as the word and the
remainder ignored. -/
theorem c10_from_hex_short_line (pre : List String) (ws : List Nat) (l : String)
    (post : List String) (hpre : fromHexGo pre [] = .ok ws) :
    (¬(trimChars l.toList).isEmpty → (trimChars l.toList).take 2 ≠ ['/', '/'] →
      (trimChars l.toList).length < 4 →
      fromHexGo (pre ++ l :: post) [] = .panic) ∧
    (∀ w, ¬(trimChars l.toList).isEmpty → (trimChars l.toList).take 2 ≠ ['/', '/'] →
      4 < (trimChars l.toList).length →
      parseHexU16 ((trimChars l.toList).take 4) = some w →
      ws.length < 4096 →
      fromHexGo (pre ++ [l]) [] = .ok (ws ++ [w])) := by
  constructor
  · intro h1 h2 h3
    rw [fromHexGo_append, hpre]
    simp only [fromHexGo]
    rw [if_neg h1, if_neg h2, if_pos h3]
  · intro w h1 h2 h3 hp h5
    rw [fromHexGo_append, hpre]
    simp only [fromHexGo]
    rw [if_neg h1, if_neg h2, if_neg (by omega), hp]
    dsimp only
    rw [if_neg (by omega)]

/-- C10 witness: the single line `"1"` panics the loader, while the
single line `"12345"` loads as the word `0x1234` with the trailing `5`
ignored. -/
theorem c10_from_hex_short_line_witness :
    fromHexGo (([] : List String) ++ "1" :: []) [] = .panic ∧
    fromHexGo (([] : List String) ++ ["12345"]) [] = .ok ([] ++ [0x1234]) :=
  ⟨(c10_from_hex_short_line [] [] ("1") [] rfl).1 (by decide) (by decide) (by decide),
   (c10_from_hex_short_line [] [] ("12345") [] rfl).2 0x1234 (by decide) (by decide)
     (by decide) (by decide) (by decide)⟩

/-- The simulator used for the C7 witness: `brl 5` (`0xF005`) at
address 0. -/
def c7sim : SimState := from_memory (fun a => [0xF005].getD a 0) 1 []

/-- C7 witness: stepping `brl 5` at address 0 puts the return address 1
in the accumulator and jumps to 5. -/
theorem c7_brl_return_address_witness :
    (step c7sim).1 = .ok false ∧
    (step c7sim).2.acc = c7sim.pc + 1 ∧
    (step c7sim).2.pc = 5 :=
  c7_brl_return_address c7sim 5 rfl (by decide) (by decide)

/-- A single assembler statement (`Stmt` in `src/asm.rs`): an
instruction with its optional unresolved argument, or a `dw` data
declaration carrying its raw operand text. -/
inductive Stmt
  | instr (i : Instruction) (addr : Option String)
  | data (s : String)
deriving DecidableEq

/-- The assembler state after the first pass (`Assembler` in
`src/asm.rs`): statements with their 1-based line numbers, and the label
table.  The Rust `HashMap` is modelled as an association list; keys are
unique because insertion is guarded by a `contains_key` check. -/
structure Assembler where
  stmts : List (Nat × Stmt)
  labels : List (String × Nat)
deriving DecidableEq

/-- An assembled program (`Program` in `src/asm.rs`). -/
structure Program where
  data : List Nat
  labels : List (String × Nat)
deriving DecidableEq

/-- `get_shift_amt`: parse a shift amount, requiring a decimal value
below 16. -/
def get_shift_amt (arg : Option String) (n : Nat) : Except ErrorKind Nat :=
  match arg with
  | none => .error (.asm ("must specify amount to shift") n)
  | some s =>
    match parseDecU16 s.toList with
    | none => .error (.asm ("invalid shift amount") n)
    | some amt =>
      if amt ≥ 16 then
        .error (.asm ("invalid shift amount (must be between 0 and 15, inclusive)") n)
      else .ok amt

/-- `get_stmt`: map a mnemonic and optional argument to a statement.
Address-taking instructions get a zero placeholder resolved in the
second pass; the raw argument is stored alongside. -/
def get_stmt (instr : String) (arg : Option String) (n : Nat) : Except ErrorKind Stmt :=
  if instr = "dw" then
    match arg with
    | some s => .ok (.data s)
    | none => .error (.asm ("expected data declaration after 'dw'") n)
  else if instr = "halt" then .ok (.instr .halt arg)
  else if instr = "readH" then .ok (.instr (.io .readHex) arg)
  else if instr = "readC" then .ok (.instr (.io .readChar) arg)
  else if instr = "printH" then .ok (.instr (.io .writeHex) arg)
  else if instr = "printC" then .ok (.instr (.io .writeChar) arg)
  else if instr = "shiftL" then
    match get_shift_amt arg n with
    | .error e => .error e
    | .ok amt => .ok (.instr (.shift .shiftLeft amt) arg)
  else if instr = "shiftR" then
    match get_shift_amt arg n with
    | .error e => .error e
    | .ok amt => .ok (.instr (.shift .shiftRight amt) arg)
  else if instr = "rotL" then
    match get_shift_amt arg n with
    | .error e => .error e
    | .ok amt => .ok (.instr (.shift .rotateLeft amt) arg)
  else if instr = "rotR" then
    match get_shift_amt arg n with
    | .error e => .error e
    | .ok amt => .ok (.instr (.shift .rotateRight amt) arg)
  else if instr = "load" then .ok (.instr (.load 0) arg)
  else if instr = "store" then .ok (.instr (.store 0) arg)
  else if instr = "add" then .ok (.instr (.add 0) arg)
  else if instr = "sub" then .ok (.instr (.sub 0) arg)
  else if instr = "and" then .ok (.instr (.and 0) arg)
  else if instr = "or" then .ok (.instr (.or 0) arg)
  else if instr = "xor" then .ok (.instr (.xor 0) arg)
  else if instr = "not" then .ok (.instr .not arg)
  else if instr = "nop" then .ok (.instr .nop arg)
  else if instr = "jmp" then .ok (.instr (.jmp 0) arg)
  else if instr = "jmpe" then .ok (.instr (.jmpe 0) arg)
  else if instr = "jmpl" then .ok (.instr (.jmpl 0) arg)
  else if instr = "brl" then .ok (.instr (.brl 0) arg)
  else .error (.asm ("unknown instruction '" ++ instr ++ "'") n)

/-- The tail of the first-pass loop body, after any label has been
consumed: the `ProgramTooLong` ceiling check (the statement count is
stored as a `u16`, hence the 65535 ceiling), the single-argument check,
and the statement construction. -/
def first_pass_tail (n : Nat) (part : List Char) (rest : List (List Char))
    (st : Assembler) : Except ErrorKind Assembler :=
  if st.stmts.length = 65535 then .error .programTooLong
  else match rest with
    | _ :: extra :: _ => .error (.asm ("unexpected argument " ++ String.mk extra) n)
    | _ =>
      match get_stmt (String.mk part) (rest.head?.map String.mk) n with
      | .error e => .error e
      | .ok stmt => .ok { st with stmts := st.stmts ++ [(n, stmt)] }

/-- One line of `Assembler::first_pass`: strip the comment, tokenise,
peel an optional label off the first token (binding it to the current
statement index, rejecting empty and duplicate labels), then process the
mnemonic and argument. -/
def first_pass_line (n : Nat) (line : String) (st : Assembler) : Except ErrorKind Assembler :=
  match splitWs (stripComment line.toList) with
  | [] => .ok st
  | part :: rest =>
    match labelSplit part with
    | some (lab, after) =>
      let label := String.mk (trimChars lab)
      if label = "" then .error (.asm ("found empty label") n)
      else if (st.labels.lookup label).isSome then
        .error (.asm ("found duplicate label: '" ++ label ++ "'") n)
      else
        let st' := { st with labels := (label, st.stmts.length) :: st.labels }
        if after.isEmpty then
          match rest with
          | [] => .ok st'
          | part2 :: rest2 => first_pass_tail n part2 rest2 st'
        else first_pass_tail n after rest st'
    | none => first_pass_tail n part rest st

/-- The line loop of `Assembler::first_pass`; `n` is the 1-based number
of the next line. -/
def first_pass_go (n : Nat) : List String → Assembler → Except ErrorKind Assembler
  | [], st => .ok st
  | l :: rest, st =>
    match first_pass_line n l st with
    | .error e => .error e
    | .ok st' => first_pass_go (n + 1) rest st'

/-- `Assembler::first_pass` over the source's lines. -/
def first_pass (lines : List String) : Except ErrorKind Assembler :=
  first_pass_go 1 lines { stmts := [], labels := [] }

/-- `Assembler::resolve_label`: look a label up in the finalized table,
or fail naming the line of use. -/
def resolve_label (labels : List (String × Nat)) (label : String) (n : Nat) :
    Except ErrorKind Nat :=
  match labels.lookup label with
  | some a => .ok a
  | none => .error (.asm ("label '" ++ label ++ "' is undefined") n)

/-- `Assembler::assemble_data`: parse a `dw` operand as a hexadecimal
word. -/
def assemble_data (n : Nat) (s : String) : Except ErrorKind Nat :=
  match parseHexU16 s.toList with
  | some v => .ok v
  | none => .error (.asm ("invalid data declaration (must be a hexadecimal word)") n)

/-- `refuse_arg`: error when an argument was given to an instruction
that takes none. -/
def refuse_arg (i : Instruction) (arg : Option String) (n : Nat) : Except ErrorKind Unit :=
  match arg with
  | some _ => .error (.asm ("unexpected argument to '" ++ i.name ++ "'") n)
  | none => .ok ()

/-- `require_arg`: extract an instruction's required argument. -/
def require_arg (i : Instruction) (arg : Option String) (n : Nat) : Except ErrorKind String :=
  match arg with
  | some s => .ok s
  | none => .error (.asm ("expected argument to '" ++ i.name ++ "'") n)

/-- `Assembler::assemble_instr`: reject stray arguments on no-operand
instructions, pass shifts through (their amount was fixed in the first
pass), and resolve the label argument of the nine address-taking
instructions, then encode. -/
def assemble_instr (labels : List (String × Nat)) (n : Nat) (i : Instruction)
    (addr : Option String) : Except ErrorKind Nat :=
  match i with
  | .halt | .io _ | .not | .nop =>
    match refuse_arg i addr n with
    | .error e => .error e
    | .ok _ => .ok (to_u16 i)
  | .shift _ _ => .ok (to_u16 i)
  | .load _ =>
    (require_arg i addr n).bind fun s =>
      (resolve_label labels s n).map fun a => to_u16 (.load a)
  | .store _ =>
    (require_arg i addr n).bind fun s =>
      (resolve_label labels s n).map fun a => to_u16 (.store a)
  | .add _ =>
    (require_arg i addr n).bind fun s =>
      (resolve_label labels s n).map fun a => to_u16 (.add a)
  | .sub _ =>
    (require_arg i addr n).bind fun s =>
      (resolve_label labels s n).map fun a => to_u16 (.sub a)
  | .and _ =>
    (require_arg i addr n).bind fun s =>
      (resolve_label labels s n).map fun a => to_u16 (.and a)
  | .or _ =>
    (require_arg i addr n).bind fun s =>
      (resolve_label labels s n).map fun a => to_u16 (.or a)
  | .xor _ =>
    (require_arg i addr n).bind fun s =>
      (resolve_label labels s n).map fun a => to_u16 (.xor a)
  | .jmp _ =>
    (require_arg i addr n).bind fun s =>
      (resolve_label labels s n).map fun a => to_u16 (.jmp a)
  | .jmpe _ =>
    (require_arg i addr n).bind fun s =>
      (resolve_label labels s n).map fun a => to_u16 (.jmpe a)
  | .jmpl _ =>
    (require_arg i addr n).bind fun s =>
      (resolve_label labels s n).map fun a => to_u16 (.jmpl a)
  | .brl _ =>
    (require_arg i addr n).bind fun s =>
      (resolve_label labels s n).map fun a => to_u16 (.brl a)

/-- One statement of the second pass. -/
def assembleStmt (labels : List (String × Nat)) (p : Nat × Stmt) : Except ErrorKind Nat :=
  match p.2 with
  | .data s => assemble_data p.1 s
  | .instr i addr => assemble_instr labels p.1 i addr

/-- The emission loop of `Assembler::second_pass`, aborting at the first
error. -/
def second_pass_go (labels : List (String × Nat)) :
    List (Nat × Stmt) → Except ErrorKind (List Nat)
  | [] => .ok []
  | p :: rest =>
    match assembleStmt labels p with
    | .error e => .error e
    | .ok w =>
      match second_pass_go labels rest with
      | .error e => .error e
      | .ok ws => .ok (w :: ws)

/-- `Assembler::second_pass`. -/
def second_pass (asm : Assembler) : Except ErrorKind Program :=
  match second_pass_go asm.labels asm.stmts with
  | .error e => .error e
  | .ok code => .ok { data := code, labels := asm.labels }

/-- `Assembler::assemble` over the source's lines. -/
def assemble (lines : List String) : Except ErrorKind Program :=
  match first_pass lines with
  | .error e => .error e
  | .ok asm => second_pass asm

/-- Statement-level validity with respect to a label table: the `dw`
operand parses, no-operand instructions carry no argument, and every
address-taking instruction's argument is a label present in the table
(where it was defined is irrelevant). -/
def stmtOk (labels : List (String × Nat)) (p : Nat × Stmt) : Prop :=
  match p.2 with
  | .data s => (parseHexU16 s.toList).isSome
  | .instr i addr =>
    match i with
    | .halt | .io _ | .not | .nop => addr = none
    | .shift _ _ => True
    | _ => ∃ s, addr = some s ∧ (labels.lookup s).isSome

theorem dropWhile_eq_self_of (p : Char → Bool) (cs : List Char) (h : ∀ c ∈ cs, ¬p c) :
    cs.dropWhile p = cs := by
  cases cs with
  | nil => rfl
  | cons c rest =>
    rw [List.dropWhile_cons, if_neg (h c (List.mem_cons_self c rest))]

theorem trimChars_eq_self (cs : List Char) (h : ∀ c ∈ cs, ¬c.isWhitespace) :
    trimChars cs = cs := by
  unfold trimChars
  rw [dropWhile_eq_self_of _ _ h]
  rw [dropWhile_eq_self_of _ _ (fun c hc => h c (List.mem_reverse.mp hc))]
  exact List.reverse_reverse cs

/-- Splitting a token at its first colon, when the text before the colon
is colon-free. -/
theorem labelSplit_append (x after : List Char) (hx : ∀ c ∈ x, ¬c = ':') :
    labelSplit (x ++ ':' :: after) = some (x, after) := by
  induction x with
  | nil => rfl
  | cons c cs ih =>
    rw [List.cons_append]
    simp only [labelSplit]
    rw [if_neg (hx c (List.mem_cons_self c cs))]
    rw [ih (fun d hd => hx d (List.mem_cons_of_mem c hd))]

/-- The first pass processes a concatenation of line lists by feeding
the state after the first part into the second, with the line counter
advanced by the length of the first part. -/
theorem first_pass_go_append (xs ys : List String) (n : Nat) (st : Assembler) :
    first_pass_go n (xs ++ ys) st = match first_pass_go n xs st with
      | .ok st' => first_pass_go (n + xs.length) ys st'
      | .error e => .error e := by
  induction xs generalizing n st with
  | nil => rfl
  | cons l rest ih =>
    rw [List.cons_append]
    simp only [first_pass_go]
    rcases hl : first_pass_line n l st with e | st'
    · rfl
    · dsimp only
      rw [ih]
      simp only [List.length_cons]
      have harith : n + 1 + rest.length = n + (rest.length + 1) := by omega
      rw [harith]

/-- A statement that is valid for a label table assembles to a word. -/
theorem assembleStmt_isOk (labels : List (String × Nat)) (p : Nat × Stmt)
    (h : stmtOk labels p) : ∃ w, assembleStmt labels p = .ok w := by
  rcases p with ⟨n, st⟩
  cases st with
  | data s =>
    simp only [stmtOk] at h
    obtain ⟨v, hv⟩ := Option.isSome_iff_exists.mp h
    exact ⟨v, by unfold assembleStmt assemble_data; dsimp only; rw [hv]⟩
  | instr i addr =>
    cases i with
    | halt =>
      simp only [stmtOk] at h
      subst h
      exact ⟨_, rfl⟩
    | io op =>
      simp only [stmtOk] at h
      subst h
      exact ⟨_, rfl⟩
    | not =>
      simp only [stmtOk] at h
      subst h
      exact ⟨_, rfl⟩
    | nop =>
      simp only [stmtOk] at h
      subst h
      exact ⟨_, rfl⟩
    | shift op m => exact ⟨_, rfl⟩
    | load a =>
      simp only [stmtOk] at h
      obtain ⟨s', hs', hl⟩ := h
      subst hs'
      obtain ⟨a', ha⟩ := Option.isSome_iff_exists.mp hl
      exact ⟨to_u16 (.load a'),
        by unfold assembleStmt assemble_instr require_arg resolve_label Except.bind Except.map; dsimp only; rw [ha]⟩
    | store a =>
      simp only [stmtOk] at h
      obtain ⟨s', hs', hl⟩ := h
      subst hs'
      obtain ⟨a', ha⟩ := Option.isSome_iff_exists.mp hl
      exact ⟨to_u16 (.store a'),
        by unfold assembleStmt assemble_instr require_arg resolve_label Except.bind Except.map; dsimp only; rw [ha]⟩
    | add a =>
      simp only [stmtOk] at h
      obtain ⟨s', hs', hl⟩ := h
      subst hs'
      obtain ⟨a', ha⟩ := Option.isSome_iff_exists.mp hl
      exact ⟨to_u16 (.add a'),
        by unfold assembleStmt assemble_instr require_arg resolve_label Except.bind Except.map; dsimp only; rw [ha]⟩
    | sub a =>
      simp only [stmtOk] at h
      obtain ⟨s', hs', hl⟩ := h
      subst hs'
      obtain ⟨a', ha⟩ := Option.isSome_iff_exists.mp hl
      exact ⟨to_u16 (.sub a'),
        by unfold assembleStmt assemble_instr require_arg resolve_label Except.bind Except.map; dsimp only; rw [ha]⟩
    | and a =>
      simp only [stmtOk] at h
      obtain ⟨s', hs', hl⟩ := h
      subst hs'
      obtain ⟨a', ha⟩ := Option.isSome_iff_exists.mp hl
      exact ⟨to_u16 (.and a'),
        by unfold assembleStmt assemble_instr require_arg resolve_label Except.bind Except.map; dsimp only; rw [ha]⟩
    | or a =>
      simp only [stmtOk] at h
      obtain ⟨s', hs', hl⟩ := h
      subst hs'
      obtain ⟨a', ha⟩ := Option.isSome_iff_exists.mp hl
      exact ⟨to_u16 (.or a'),
        by unfold assembleStmt assemble_instr require_arg resolve_label Except.bind Except.map; dsimp only; rw [ha]⟩
    | xor a =>
      simp only [stmtOk] at h
      obtain ⟨s', hs', hl⟩ := h
      subst hs'
      obtain ⟨a', ha⟩ := Option.isSome_iff_exists.mp hl
      exact ⟨to_u16 (.xor a'),
        by unfold assembleStmt assemble_instr require_arg resolve_label Except.bind Except.map; dsimp only; rw [ha]⟩
    | jmp a =>
      simp only [stmtOk] at h
      obtain ⟨s', hs', hl⟩ := h
      subst hs'
      obtain ⟨a', ha⟩ := Option.isSome_iff_exists.mp hl
      exact ⟨to_u16 (.jmp a'),
        by unfold assembleStmt assemble_instr require_arg resolve_label Except.bind Except.map; dsimp only; rw [ha]⟩
    | jmpe a =>
      simp only [stmtOk] at h
      obtain ⟨s', hs', hl⟩ := h
      subst hs'
      obtain ⟨a', ha⟩ := Option.isSome_iff_exists.mp hl
      exact ⟨to_u16 (.jmpe a'),
        by unfold assembleStmt assemble_instr require_arg resolve_label Except.bind Except.map; dsimp only; rw [ha]⟩
    | jmpl a =>
      simp only [stmtOk] at h
      obtain ⟨s', hs', hl⟩ := h
      subst hs'
      obtain ⟨a', ha⟩ := Option.isSome_iff_exists.mp hl
      exact ⟨to_u16 (.jmpl a'),
        by unfold assembleStmt assemble_instr require_arg resolve_label Except.bind Except.map; dsimp only; rw [ha]⟩
    | brl a =>
      simp only [stmtOk] at h
      obtain ⟨s', hs', hl⟩ := h
      subst hs'
      obtain ⟨a', ha⟩ := Option.isSome_iff_exists.mp hl
      exact ⟨to_u16 (.brl a'),
        by unfold assembleStmt assemble_instr require_arg resolve_label Except.bind Except.map; dsimp only; rw [ha]⟩

/-- If every statement assembles, the emission loop succeeds. -/
theorem second_pass_go_isOk (labels : List (String × Nat)) (stmts : List (Nat × Stmt))
    (h : ∀ p ∈ stmts, ∃ w, assembleStmt labels p = .ok w) :
    ∃ ws, second_pass_go labels stmts = .ok ws := by
  induction stmts with
  | nil => exact ⟨[], rfl⟩
  | cons p rest ih =>
    obtain ⟨w, hw⟩ := h p (List.mem_cons_self p rest)
    obtain ⟨ws, hws⟩ := ih (fun q hq => h q (List.mem_cons_of_mem p hq))
    exact ⟨w :: ws, by unfold second_pass_go; rw [hw, hws]⟩

/-- A line whose first token re-defines a label already in the table
makes the first pass fail with the duplicate-label error at that line. -/
theorem first_pass_line_duplicate (n : Nat) (dup : String) (st : Assembler)
    (x : String) (part after : List Char) (toks : List (List Char))
    (hsplit : splitWs (stripComment dup.toList) = part :: toks)
    (hpart : part = x.toList ++ ':' :: after)
    (hx : ∀ c ∈ x.toList, c ≠ ':' ∧ ¬c.isWhitespace)
    (hne : x.toList ≠ [])
    (hlook : (st.labels.lookup x).isSome) :
    first_pass_line n dup st = .error (.asm ("found duplicate label: '" ++ x ++ "'") n) := by
  unfold first_pass_line
  rw [hsplit]
  dsimp only
  rw [hpart, labelSplit_append x.toList after (fun c hc => (hx c hc).1)]
  dsimp only
  have htrim : trimChars x.toList = x.toList := trimChars_eq_self _ (fun c hc => (hx c hc).2)
  rw [htrim]
  have hmk : String.mk x.toList = x := by cases x; rfl
  rw [hmk]
  have hxe : ¬(x = "") := by
    intro hc
    apply hne
    rw [hc]
    rfl
  rw [if_neg hxe, if_pos hlook]

/-- C8: the two-pass structure of the assembler.  First conjunct
(forward references): whenever the first pass succeeds, the second pass
resolves every label argument against the *complete* table collected
from the whole source, so assembly succeeds as soon as each referenced
label is defined somewhere — on an earlier or a later line alike — and
each statement is otherwise valid.  Second conjunct (duplicates): a
source whose prefix assembles to a state binding label `x`, followed by
a line whose first token re-defines `x`, fails with an `Asm` error whose
message names `x` and whose line number is the 1-based line of the
second (duplicate) definition. -/
theorem c8_forward_refs_and_duplicate_labels :
    (∀ (lines : List String) (st : Assembler),
      first_pass lines = .ok st →
      (∀ p ∈ st.stmts, stmtOk st.labels p) →
      ∃ prog : Program, assemble lines = .ok prog ∧ prog.labels = st.labels) ∧
    (∀ (pre : List String) (dup : String) (post : List String) (st : Assembler)
      (x : String) (part after : List Char) (toks : List (List Char)),
      first_pass_go 1 pre { stmts := [], labels := [] } = .ok st →
      (st.labels.lookup x).isSome →
      splitWs (stripComment dup.toList) = part :: toks →
      part = x.toList ++ ':' :: after →
      (∀ c ∈ x.toList, c ≠ ':' ∧ ¬c.isWhitespace) →
      x.toList ≠ [] →
      assemble (pre ++ dup :: post) =
        .error (.asm ("found duplicate label: '" ++ x ++ "'") (pre.length + 1))) := by
  constructor
  · intro lines st hfp hok
    have h1 : ∀ p ∈ st.stmts, ∃ w, assembleStmt st.labels p = .ok w :=
      fun p hp => assembleStmt_isOk st.labels p (hok p hp)
    obtain ⟨ws, hws⟩ := second_pass_go_isOk st.labels st.stmts h1
    refine ⟨{ data := ws, labels := st.labels }, ?_, rfl⟩
    unfold assemble
    rw [hfp]
    unfold second_pass
    dsimp only
    rw [hws]
  · intro pre dup post st x part after toks hpre hlook hsplit hpart hx hne
    have hline := first_pass_line_duplicate (pre.length + 1) dup st x part after toks
      hsplit hpart hx hne hlook
    unfold assemble first_pass
    rw [first_pass_go_append, hpre]
    dsimp only
    have harith : 1 + pre.length = pre.length + 1 := by omega
    rw [harith]
    simp only [first_pass_go]
    rw [hline]

/-- C8 witness: the two-line source `"a: halt" / "a: nop"` fails with
the duplicate-label error at line 2, and the source
`"jmp end" / "end: halt"`, whose first line references a label defined
only on the second line, assembles successfully. -/
theorem c8_forward_refs_and_duplicate_labels_witness :
    assemble ["a: halt", "a: nop"] = .error (.asm ("found duplicate label: 'a'") 2) ∧
    ∃ prog : Program, assemble ["jmp end", "end: halt"] = .ok prog ∧
      prog.labels = [("end", 1)] := by
  constructor
  · exact c8_forward_refs_and_duplicate_labels.2 ["a: halt"] ("a: nop") []
      { stmts := [(1, .instr .halt none)], labels := [("a", 0)] }
      ("a") ("a:".toList) [] ["nop".toList]
      (by decide) (by decide) (by decide) (by decide) (by decide) (by decide)
  · obtain ⟨prog, hprog, hlab⟩ := c8_forward_refs_and_duplicate_labels.1
      ["jmp end", "end: halt"]
      { stmts := [(1, .instr (.jmp 0) (some "end")), (2, .instr .halt none)],
        labels := [("end", 1)] }
      (by decide)
      (by
        intro p hp
        rcases List.mem_cons.mp hp with rfl | hp2
        · exact ⟨"end", rfl, by decide⟩
        · rcases List.mem_cons.mp hp2 with rfl | hp3
          · exact rfl
          · cases hp3)
    exact ⟨prog, hprog, hlab⟩

end Ibcm
